import Mathlib

/-!
Verification of the `s3checksum` package (amazon-s3-checksum-tool).

The definitions below are a shallow embedding of `multipartfile.go` and
`manifest.go`.  Bytes are modelled as `ℕ` (values < 256), byte slices as
`List ℕ`, the pluggable `hash.Hash` objects as pure functions
`List ℕ → List ℕ` from the full written byte stream to the digest
(`Reset`/`Write`/`Sum(nil)` on a `hash.Hash` computes exactly the digest of
the concatenation of the written slices), and `log.Fatal` (process
termination) as the `GoResult.fatal` outcome.  Go `int`/`int64` arithmetic
is modelled on `ℕ`: every quantity involved (sizes, offsets, counts) is
non-negative and far below 2^63 on all inputs the theorems talk about, so
no wrap-around is dropped.
-/

set_option maxRecDepth 4000

namespace S3Checksum

/-- Outcome of a Go function that may terminate the process via `log.Fatal`:
`fatal msg` models process termination, `ok v` models a normal return. -/
inductive GoResult (α : Type) where
  | fatal (msg : String) : GoResult α
  | ok (val : α) : GoResult α
deriving DecidableEq, Repr

/-- Embedding of `PartInfo` from `manifest.go`.  `Checksum` and
`MD5Checksum` are raw digest byte strings. -/
structure PartInfo where
  PartNumber : ℕ
  Size : ℕ
  Algorithm : String
  Checksum : List ℕ
  MD5Checksum : List ℕ
deriving DecidableEq, Repr

/-- Embedding of `ManifestFile` from `manifest.go`.  A Go field left unset
stays at its zero value (`nil` slice = `[]`, empty string, `0`). -/
structure ManifestFile where
  Filename : String
  PartSize : ℕ
  PartList : List PartInfo
  Checksum : List ℕ
  Etag : List ℕ
  Algorithm : String
deriving DecidableEq, Repr

/-- `MIN_PART_SIZE` constant from `multipartfile.go` (5 MiB). -/
def MIN_PART_SIZE : ℕ := 5242880

/-! ### IEEE-754 binary64 model

`resolvePartSize` computes
`o.NumberOfParts = int(math.Ceil(float64(o.FileSize) / float64(o.PartSize)))`.
The conversions and the division are IEEE-754 binary64 operations with
round-to-nearest, ties-to-even.  We model a (positive, finite) double by its
exact value written as a pair `(m, e)` meaning `m * 2^e` with `m < 2^53`
(after rounding the significand to 53 bits); all the inputs reached here are
far from overflow/underflow, so rounding the significand is the entire
semantics. -/

/-- Number of binary digits of `n` (`0` for `n = 0`), fuel-driven so that it
reduces by `decide`; `fuel` bounds the bit width. -/
def bitlenAux : ℕ → ℕ → ℕ
  | 0, _ => 0
  | fuel + 1, n => if n = 0 then 0 else bitlenAux fuel (n / 2) + 1

/-- Bit length of a natural number below `2^400` (ample for every quantity
appearing in the binary64 model). -/
def bitlen (n : ℕ) : ℕ := bitlenAux 400 n

/-- Round the exact rational `num / den` (`den ≠ 0`) to the nearest integer,
ties to even — the IEEE-754 default rounding applied to a scaled
significand. -/
def roundHalfEvenDiv (num den : ℕ) : ℕ :=
  let q := num / den
  let r := num % den
  if 2 * r < den then q
  else if den < 2 * r then q + 1
  else if q % 2 = 0 then q else q + 1

/-- Multiply the rational `num / den` by `2^shift`, keeping a `ℕ × ℕ`
numerator/denominator pair. -/
def ratShift (num den : ℕ) (shift : ℤ) : ℕ × ℕ :=
  if 0 ≤ shift then (num * 2 ^ shift.toNat, den) else (num, den * 2 ^ (-shift).toNat)

/-- Floor of the base-2 logarithm of `num / den`, valid whenever
`2^(-64) ≤ num / den`: scale by `2^64`, take the floor and its bit length. -/
def floorLog2 (num den : ℕ) : ℤ := (bitlen (num * 2 ^ 64 / den) : ℤ) - 65

/-- Round the positive rational `num / den` to the nearest binary64 value
(round-to-nearest, ties-to-even), returned as significand/exponent with the
significand scaled into `[2^52, 2^53]`. -/
def roundToSig53 (num den : ℕ) : ℕ × ℤ :=
  let e : ℤ := floorLog2 num den - 52
  let sn := ratShift num den (-e)
  (roundHalfEvenDiv sn.1 sn.2, e)

/-- Go conversion `float64(n)` for a non-negative integer `n`: round to the
nearest binary64. -/
def float64OfNat (n : ℕ) : ℕ × ℤ := roundToSig53 n 1

/-- IEEE-754 binary64 division: round the exact quotient of the two operand
values to the nearest binary64. -/
def floatDiv (a b : ℕ × ℤ) : ℕ × ℤ :=
  let p := ratShift a.1 b.1 (a.2 - b.2)
  roundToSig53 p.1 p.2

/-- `int(math.Ceil x)` for a positive binary64 `x = m * 2^e`: `math.Ceil` is
exact on doubles and the results reached here fit `int64`, so this is the
exact integer ceiling of the double's value. -/
def floatCeilToNat (a : ℕ × ℤ) : ℕ :=
  if 0 ≤ a.2 then a.1 * 2 ^ a.2.toNat
  else (a.1 + 2 ^ (-a.2).toNat - 1) / 2 ^ (-a.2).toNat

/-- The `NumberOfParts` computation from `resolvePartSize`
(`multipartfile.go`): `int(math.Ceil(float64(FileSize) / float64(PartSize)))`
under the binary64 model. -/
def goNumberOfParts (fileSize partSize : ℕ) : ℕ :=
  floatCeilToNat (floatDiv (float64OfNat fileSize) (float64OfNat partSize))

/-- The exact integer ceiling `⌈fileSize / partSize⌉`, the number the spec
prescribes for `NumberOfParts`. -/
def exactCeilDiv (fileSize partSize : ℕ) : ℕ := (fileSize + partSize - 1) / partSize

/-- Embedding of `resolvePartSize` from `multipartfile.go`: `log.Fatal` on a
zero file size or an undersized part, otherwise the `float64`-computed
`NumberOfParts`. -/
def resolvePartSize (fileSize partSize : ℕ) : GoResult ℕ :=
  if fileSize = 0 then .fatal "file size cannot be 0"
  else if partSize < MIN_PART_SIZE then .fatal "part size should be larger than 5MB"
  else .ok (goNumberOfParts fileSize partSize)

/-! ### Construction (`NewMultipartFile`, `checkRequiredArgs`) -/

/-- Embedding of `MultipartFileOpts` (the function-typed `HashFun` field is
carried separately as explicit parameters of the checksum functions). -/
structure MultipartFileOpts where
  FilePath : String
  ManifestFilePath : String
  FileSize : ℕ
  NumberOfParts : ℕ
  PartSize : ℕ
  NumRoutines : ℕ
  Threads : ℕ
  Algorithm : String
deriving DecidableEq, Repr

/-- Embedding of `checkRequiredArgs` from `multipartfile.go`.  The
filesystem is passed explicitly: `stat = none` models a failing
`os.Stat(FilePath)` (missing/unreadable file), `stat = some sz` a successful
stat of a file of `sz` bytes, whose size overwrites `FileSize`. -/
def checkRequiredArgs (o : MultipartFileOpts) (stat : Option ℕ) :
    GoResult MultipartFileOpts :=
  if o.FilePath = "" then .fatal "FilePath is a required parameter"
  else
    match stat with
    | none => .fatal "stat error"
    | some sz => .ok { o with FileSize := sz, NumRoutines := 16 }

/-- Embedding of `NewMultipartFile` from `multipartfile.go` (with no
`optFns`): validate the arguments, resolve the part count, and return the
constructed value together with the returned `error` (always `nil`; the
pools cannot fail to be built).  A `fatal` outcome models `log.Fatal`
terminating the process inside validation. -/
def newMultipartFile (o : MultipartFileOpts) (stat : Option ℕ) :
    GoResult (MultipartFileOpts × Option String) :=
  match checkRequiredArgs o stat with
  | .fatal m => .fatal m
  | .ok o1 =>
    match resolvePartSize o1.FileSize o1.PartSize with
    | .fatal m => .fatal m
    | .ok n => .ok ({ o1 with NumberOfParts := n }, none)


/-! ### Part worker (`CalculateChecksumForPart`) -/

/-- Start offset of 0-based part `partNum`: `start := m.PartSize * int64(partNum)`. -/
def partStart (partSize partNum : ℕ) : ℕ := partSize * partNum

/-- End offset of 0-based part `partNum`:
`end := start + m.PartSize; if end > m.FileSize { end = m.FileSize }`. -/
def partEnd (fileSize partSize partNum : ℕ) : ℕ :=
  min (partStart partSize partNum + partSize) fileSize

/-- Size of 0-based part `partNum`: `size := end - start`.  On every index
the orchestrator dispatches (`partStart ≤ fileSize`) this `ℕ` subtraction
agrees with the source's `int64` subtraction. -/
def partSizeAt (fileSize partSize partNum : ℕ) : ℕ :=
  partEnd fileSize partSize partNum - partStart partSize partNum

/-- Bytes the worker reads for part `partNum` from the file currently on
disk: seek to `start`, then `io.ReadFull` into a `size`-byte buffer reads
`min size (disk length - start)` bytes. -/
def partData (fileSize partSize : ℕ) (diskFile : List ℕ) (partNum : ℕ) : List ℕ :=
  (diskFile.drop (partStart partSize partNum)).take (partSizeAt fileSize partSize partNum)

/-- The `PartInfo` built at the end of `CalculateChecksumForPart`:
1-based `PartNumber`, the planned `size`, constant `"sha256"` algorithm
label, the content digest and the MD5 digest of the bytes read. -/
def partInfoAt (hashFun md5Fun : List ℕ → List ℕ) (fileSize partSize : ℕ)
    (diskFile : List ℕ) (partNum : ℕ) : PartInfo :=
  { PartNumber := partNum + 1
    Size := partSizeAt fileSize partSize partNum
    Algorithm := "sha256"
    Checksum := hashFun (partData fileSize partSize diskFile partNum)
    MD5Checksum := md5Fun (partData fileSize partSize diskFile partNum) }

/-- Embedding of `CalculateChecksumForPart` from `multipartfile.go`.
`fileSize` is the size recorded at construction time, `diskFile` the bytes
actually on disk when the worker opens and reads the file; when fewer than
`size` bytes are available past `start` the `io.ReadFull` result fails the
`int64(n) != size` check and the function returns an error and no
`PartInfo`. -/
def calculateChecksumForPart (hashFun md5Fun : List ℕ → List ℕ)
    (fileSize partSize : ℕ) (diskFile : List ℕ) (partNum : ℕ) :
    Except String PartInfo :=
  let size := partSizeAt fileSize partSize partNum
  let data := partData fileSize partSize diskFile partNum
  if data.length ≠ size then .error "limitedReader returned fewer bytes than expected"
  else .ok (partInfoAt hashFun md5Fun fileSize partSize diskFile partNum)

/-- The list of `PartInfo` values produced by a run in which every worker
reads the same `file` whose length matches the recorded size — in ascending
`PartNumber` order (worker for 0-based index `i` yields `PartNumber = i + 1`). -/
def runParts (hashFun md5Fun : List ℕ → List ℕ) (partSize : ℕ)
    (file : List ℕ) (n : ℕ) : List PartInfo :=
  (List.range n).map (partInfoAt hashFun md5Fun file.length partSize file)

/-! ### Orchestrator collection, sort and aggregation (`CalculateChecksum`) -/

/-- Ordered insertion used by `sortParts`. -/
def insertPart (p : PartInfo) : List PartInfo → List PartInfo
  | [] => [p]
  | q :: qs => if p.PartNumber < q.PartNumber then p :: q :: qs else q :: insertPart p qs

/-- Embedding of
`sort.Slice(partInfoList, func(i, j) { return list[i].PartNumber < list[j].PartNumber })`:
a comparison sort on the `PartNumber < PartNumber` ordering (all collected
`PartNumber`s are distinct, so every comparison sort yields the same list). -/
def sortParts : List PartInfo → List PartInfo
  | [] => []
  | p :: ps => insertPart p (sortParts ps)

/-- Embedding of the aggregation step at the end of `CalculateChecksum`
(`multipartfile.go`).  For more than one part the content digests and the
MD5 digests are each written, in list order, into a freshly reset hash whose
final sum is the aggregate; otherwise the code reads `partInfoList[0]`,
which on an empty list is an out-of-range slice index — a Go runtime panic,
modelled by `none` (the source has no error branch here). -/
def aggregateParts (hashFun md5Fun : List ℕ → List ℕ)
    (parts : List PartInfo) : Option ManifestFile :=
  if 1 < parts.length then
    some
      { Filename := ""
        PartSize := 0
        PartList := parts
        Checksum := hashFun (parts.map PartInfo.Checksum).flatten
        Etag := md5Fun (parts.map PartInfo.MD5Checksum).flatten
        Algorithm := "" }
  else
    match parts[0]? with
    | none => none
    | some p =>
      some
        { Filename := ""
          PartSize := 0
          PartList := []
          Checksum := p.Checksum
          Etag := p.MD5Checksum
          Algorithm := "" }

/-- Embedding of the sequential tail of `CalculateChecksum`: the collected
results arrive on the channel in some scheduler-dependent order `arrival`;
the orchestrator sorts them by `PartNumber`, aggregates, and then sets
`Filename`, `PartSize` and `Algorithm` on the manifest. -/
def calculateChecksum (hashFun md5Fun : List ℕ → List ℕ)
    (filePath algorithm : String) (partSize : ℕ)
    (arrival : List PartInfo) : Option ManifestFile :=
  match aggregateParts hashFun md5Fun (sortParts arrival) with
  | none => none
  | some m =>
    some { m with Filename := filePath, PartSize := partSize, Algorithm := algorithm }

/-! ### Rendering (`manifest.go`) -/

/-- Decimal digit character. -/
def digitChar (n : ℕ) : Char := Char.ofNat (48 + n)

/-- Decimal digit list of `n` (model of `fmt` `%d` for `n < 10^30`). -/
def natDigits : ℕ → ℕ → List Char
  | 0, _ => []
  | fuel + 1, n =>
    if n < 10 then [digitChar n]
    else natDigits fuel (n / 10) ++ [digitChar (n % 10)]

/-- Decimal rendering of a natural number, as `fmt` `%d` prints it. -/
def natToStr (n : ℕ) : String := String.mk (natDigits 30 n)

/-- Lowercase hexadecimal digit character, as `encoding/hex` and `%x` use. -/
def hexDigit (n : ℕ) : Char :=
  if n < 10 then Char.ofNat (48 + n) else Char.ofNat (87 + n)

/-- Model of `hex.EncodeToString` (and of `%x` on a byte slice): two
lowercase hex digits per byte. -/
def hexEncode (bs : List ℕ) : String :=
  String.mk (bs.foldr (fun b acc => hexDigit (b / 16 % 16) :: hexDigit (b % 16) :: acc) [])

/-- Character of the standard base64 alphabet at index `n < 64`. -/
def base64Char (n : ℕ) : Char :=
  if n < 26 then Char.ofNat (65 + n)
  else if n < 52 then Char.ofNat (97 + (n - 26))
  else if n < 62 then Char.ofNat (48 + (n - 52))
  else if n = 62 then '+'
  else '/'

/-- Model of `base64.StdEncoding.EncodeToString`: 3 bytes → 4 alphabet
characters, with `=` padding for a 1- or 2-byte tail. -/
def base64Encode : List ℕ → String
  | [] => ""
  | [a] => String.mk [base64Char (a / 4), base64Char (a % 4 * 16), '=', '=']
  | [a, b] =>
    String.mk [base64Char (a / 4), base64Char (a % 4 * 16 + b / 16), base64Char (b % 16 * 4), '=']
  | a :: b :: c :: rest =>
    String.mk [base64Char (a / 4), base64Char (a % 4 * 16 + b / 16),
      base64Char (b % 16 * 4 + c / 64), base64Char (c % 64)] ++ base64Encode rest

/-- Initial value of the package-global `printHex` flag in `manifest.go`. -/
def printHexInit : Bool := false

/-- Embedding of `PrintHexMode`: whatever the global rendering state was, it
is now `true`. -/
def printHexMode (_ : Bool) : Bool := true

/-- Embedding of `ByteSlice.String`: renders hex or base64 depending on the
current value of the package-global `printHex` flag (passed here as explicit
state). -/
def byteSliceString (printHex : Bool) (m : List ℕ) : String :=
  if printHex then hexEncode m else base64Encode m

/-- Embedding of the row `WriteSimpleManifest` emits for one `ManifestFile`:
`{Filename, PartSize, Algorithm, Checksum.String()-len(PartList), %x(Etag)-len(PartList)}`.
Note the suffix is always `"-" ++ len(PartList)`, whatever that length is. -/
def manifestRow (printHex : Bool) (v : ManifestFile) : List String :=
  [v.Filename, natToStr v.PartSize, v.Algorithm,
    byteSliceString printHex v.Checksum ++ "-" ++ natToStr v.PartList.length,
    hexEncode v.Etag ++ "-" ++ natToStr v.PartList.length]


/-! ### Concurrency model of the `CalculateChecksum` orchestrator

The dispatch loop, the `limiter` channel of capacity `Threads`, the worker
goroutines, the `WaitGroup`, and the closing goroutine form a small
transition system.  Worker `i` moves through four program points of the
source, in program order:

* `pending`   — not yet spawned (the dispatcher has not reached it, or is
  blocked on `limiter <- struct{}{}`);
* `working`   — the dispatcher has sent on `limiter` (acquired a slot) and
  spawned the goroutine, which is doing its open/seek/read/hash work;
* `released`  — the goroutine has executed `<-limiter` (freed its slot) but
  has not yet completed `results <- ...`;
* `done`      — the send on `results` completed, after which the deferred
  `wg.Done()` runs.

`close(results)` runs only after `wg.Wait()`, i.e. after all workers are
`done`.  A send on `results` can only happen while the channel is open. -/

/-- Program point of one worker goroutine. -/
inductive WPhase where
  | pending
  | working
  | released
  | done
deriving DecidableEq, Repr

/-- State of the orchestrator: the phase of each of the `NumberOfParts`
workers (index = 0-based part number) and whether `results` is closed. -/
structure OrchState where
  phases : List WPhase
  closed : Bool
deriving DecidableEq, Repr

/-- Number of workers currently holding a `limiter` slot. -/
def workingCount (s : OrchState) : ℕ :=
  s.phases.countP (fun w => w = WPhase.working)

/-- Initial state for a run with `n` parts: nothing dispatched, channel open. -/
def initState (n : ℕ) : OrchState :=
  { phases := List.replicate n WPhase.pending, closed := false }

/-- One step of the orchestrator with `limiter` capacity `threads`.

`dispatch` is the loop body `limiter <- struct{}{}; go func(i)…`: it fires
for the first still-pending index (the loop dispatches `i = 0, 1, …` in
order) and only when fewer than `threads` slots are held, since the send on
the full `limiter` blocks.  `finishWork` is `<-limiter` after the hashing.
`publish` is `results <- ChecksumResult{…}`, possible only on the open
channel.  `closeResults` is `wg.Wait(); close(results)`, enabled once every
worker is `done`. -/
inductive OrchStep (threads : ℕ) : OrchState → OrchState → Prop where
  | dispatch (s : OrchState) (i : ℕ)
      (hi : s.phases[i]? = some WPhase.pending)
      (hfirst : ∀ j, j < i → s.phases[j]? ≠ some WPhase.pending)
      (hslot : workingCount s < threads) :
      OrchStep threads s { s with phases := s.phases.set i WPhase.working }
  | finishWork (s : OrchState) (i : ℕ)
      (hi : s.phases[i]? = some WPhase.working) :
      OrchStep threads s { s with phases := s.phases.set i WPhase.released }
  | publish (s : OrchState) (i : ℕ)
      (hi : s.phases[i]? = some WPhase.released)
      (hopen : s.closed = false) :
      OrchStep threads s { s with phases := s.phases.set i WPhase.done }
  | closeResults (s : OrchState)
      (hall : ∀ w ∈ s.phases, w = WPhase.done)
      (hopen : s.closed = false) :
      OrchStep threads s { s with closed := true }

/-- States reachable by a run of `CalculateChecksum` over `n` parts with
`limiter` capacity `threads`. -/
inductive Reach (n threads : ℕ) : OrchState → Prop where
  | init : Reach n threads (initState n)
  | step {s t : OrchState} : Reach n threads s → OrchStep threads s t → Reach n threads t

/-! ### Concrete fixtures used to instantiate hypotheses on small inputs -/

/-- Concrete stand-in for the pluggable content hash in concrete runs. -/
def hashFixture : List ℕ → List ℕ := fun l => [(l.foldl (fun a b => a + b) 7) % 256]

/-- Concrete stand-in for the MD5 hash in concrete runs. -/
def md5Fixture : List ℕ → List ℕ := fun l => [l.length % 256, (l.foldl (fun a b => a + b) 0) % 256]

/-- A 6-byte file, two parts of size 4 and 2 at part size 4. -/
def fileFixture : List ℕ := [10, 20, 30, 40, 50, 60]

/-- A 2-byte file, a single part at part size 4. -/
def smallFileFixture : List ℕ := [10, 20]

/-- The single part of `smallFileFixture`. -/
def partFixture : PartInfo := partInfoAt hashFixture md5Fixture 2 4 smallFileFixture 0

/-- A well-formed option set (its `FileSize` is overwritten from `stat`). -/
def optsFixture : MultipartFileOpts :=
  { FilePath := "data.bin", ManifestFilePath := "", FileSize := 0, NumberOfParts := 0,
    PartSize := 10485760, NumRoutines := 0, Threads := 4, Algorithm := "sha256" }

/-- The same option set with the required `FilePath` missing. -/
def optsFixtureNoPath : MultipartFileOpts := { optsFixture with FilePath := "" }

/-! ### Lemmas about the sort step -/

/-- Non-strict `PartNumber` ordering. -/
def partLe (a b : PartInfo) : Prop := a.PartNumber ≤ b.PartNumber

/-- Strict `PartNumber` ordering (the comparison `sort.Slice` is given). -/
def partLt (a b : PartInfo) : Prop := a.PartNumber < b.PartNumber

instance : IsAntisymm PartInfo partLt :=
  ⟨fun a b h1 h2 => absurd (Nat.lt_trans h1 h2) (Nat.lt_irrefl _)⟩

theorem insertPart_perm (p : PartInfo) (l : List PartInfo) :
    (insertPart p l).Perm (p :: l) := by
  induction l with
  | nil => simp [insertPart]
  | cons q qs ih =>
    by_cases h : p.PartNumber < q.PartNumber
    · simp [insertPart, h]
    · simp only [insertPart, if_neg h]
      exact (ih.cons q).trans (List.Perm.swap p q qs)

theorem sortParts_perm (l : List PartInfo) : (sortParts l).Perm l := by
  induction l with
  | nil => simp [sortParts]
  | cons p ps ih =>
    exact (insertPart_perm p (sortParts ps)).trans (ih.cons p)

theorem mem_insertPart {x p : PartInfo} {l : List PartInfo}
    (h : x ∈ insertPart p l) : x = p ∨ x ∈ l :=
  List.mem_cons.1 ((insertPart_perm p l).mem_iff.1 h)

theorem insertPart_sorted (p : PartInfo) (l : List PartInfo)
    (h : l.Sorted partLe) : (insertPart p l).Sorted partLe := by
  induction l with
  | nil => simp [insertPart, List.Sorted]
  | cons q qs ih =>
    rcases List.pairwise_cons.1 h with ⟨hq, hqs⟩
    by_cases hlt : p.PartNumber < q.PartNumber
    · simp only [insertPart, if_pos hlt]
      refine List.pairwise_cons.2 ⟨?_, h⟩
      intro x hx
      rcases List.mem_cons.1 hx with rfl | hx
      · exact Nat.le_of_lt hlt
      · exact Nat.le_trans (Nat.le_of_lt hlt) (hq x hx)
    · simp only [insertPart, if_neg hlt]
      refine List.pairwise_cons.2 ⟨?_, ih hqs⟩
      intro x hx
      rcases mem_insertPart hx with rfl | hx
      · exact Nat.le_of_not_lt hlt
      · exact hq x hx

theorem sortParts_sorted (l : List PartInfo) : (sortParts l).Sorted partLe := by
  induction l with
  | nil => simp [sortParts, List.Sorted]
  | cons p ps ih => exact insertPart_sorted p (sortParts ps) ih

theorem sorted_lt_of_sorted_le_nodup (l : List PartInfo)
    (hs : l.Sorted partLe) (hn : (l.map PartInfo.PartNumber).Nodup) :
    l.Sorted partLt := by
  have hne : l.Pairwise fun a b => a.PartNumber ≠ b.PartNumber :=
    (List.pairwise_map).1 hn
  exact (hs.and hne).imp fun h => Nat.lt_of_le_of_ne h.1 h.2

/-- The collected results are a permutation of a list that is strictly
sorted by `PartNumber`; since all `PartNumber`s are distinct, the sort step
reconstructs exactly that list. -/
theorem sortParts_eq_of_perm {arrival canonical : List PartInfo}
    (hperm : arrival.Perm canonical) (hsorted : canonical.Sorted partLt) :
    sortParts arrival = canonical := by
  have hcnodup : (canonical.map PartInfo.PartNumber).Nodup := by
    show (canonical.map PartInfo.PartNumber).Pairwise (· ≠ ·)
    exact (List.pairwise_map).2 (hsorted.imp fun h => Nat.ne_of_lt h)
  have hanodup : (arrival.map PartInfo.PartNumber).Nodup :=
    ((hperm.map PartInfo.PartNumber).nodup_iff).2 hcnodup
  have hsnodup : ((sortParts arrival).map PartInfo.PartNumber).Nodup :=
    (((sortParts_perm arrival).map PartInfo.PartNumber).nodup_iff).2 hanodup
  have hslt : (sortParts arrival).Sorted partLt :=
    sorted_lt_of_sorted_le_nodup _ (sortParts_sorted arrival) hsnodup
  exact List.eq_of_perm_of_sorted ((sortParts_perm arrival).trans hperm) hslt hsorted

/-- The canonical result list of a run is strictly sorted by `PartNumber`
(worker `i` stamps `PartNumber = i + 1`). -/
theorem runParts_sorted (hashFun md5Fun : List ℕ → List ℕ) (partSize : ℕ)
    (file : List ℕ) (n : ℕ) :
    (runParts hashFun md5Fun partSize file n).Sorted partLt := by
  refine (List.pairwise_map).2 ?_
  exact (List.pairwise_lt_range n).imp fun h => Nat.succ_lt_succ h

theorem runParts_length (hashFun md5Fun : List ℕ → List ℕ) (partSize : ℕ)
    (file : List ℕ) (n : ℕ) :
    (runParts hashFun md5Fun partSize file n).length = n := by
  simp [runParts]

/-- `PartNumber`s of a run are exactly `1, 2, …, n` in order. -/
theorem runParts_partNumbers (hashFun md5Fun : List ℕ → List ℕ) (partSize : ℕ)
    (file : List ℕ) (n : ℕ) :
    (runParts hashFun md5Fun partSize file n).map PartInfo.PartNumber =
      List.range' 1 n := by
  simp only [runParts, List.map_map]
  have h1 : List.range' 1 n = (List.range n).map (· + 1) := by
    rw [List.range'_eq_map_range]
    refine List.map_congr_left ?_
    intro a _
    exact Nat.add_comm 1 a
  rw [h1]
  rfl

/-! ### Lemmas about the aggregation step -/

theorem aggregateParts_single (hashFun md5Fun : List ℕ → List ℕ) (p : PartInfo) :
    aggregateParts hashFun md5Fun [p] =
      some
        { Filename := "", PartSize := 0, PartList := [],
          Checksum := p.Checksum, Etag := p.MD5Checksum, Algorithm := "" } := by
  simp [aggregateParts]

theorem aggregateParts_multi (hashFun md5Fun : List ℕ → List ℕ)
    (parts : List PartInfo) (h : 1 < parts.length) :
    aggregateParts hashFun md5Fun parts =
      some
        { Filename := "", PartSize := 0, PartList := parts,
          Checksum := hashFun (parts.map PartInfo.Checksum).flatten,
          Etag := md5Fun (parts.map PartInfo.MD5Checksum).flatten,
          Algorithm := "" } := by
  simp [aggregateParts, h]

/-- Whatever order the results were collected in, the orchestrator
effectively aggregates the canonical sorted part list. -/
theorem calculateChecksum_canonical (hashFun md5Fun : List ℕ → List ℕ)
    (filePath algorithm : String) (partSize : ℕ) (file : List ℕ) (n : ℕ)
    (arrival : List PartInfo)
    (hperm : arrival.Perm (runParts hashFun md5Fun partSize file n)) :
    calculateChecksum hashFun md5Fun filePath algorithm partSize arrival =
      match aggregateParts hashFun md5Fun (runParts hashFun md5Fun partSize file n) with
      | none => none
      | some m =>
        some { m with Filename := filePath, PartSize := partSize, Algorithm := algorithm } := by
  unfold calculateChecksum
  rw [sortParts_eq_of_perm hperm (runParts_sorted hashFun md5Fun partSize file n)]

theorem runParts_one (hashFun md5Fun : List ℕ → List ℕ) (partSize : ℕ) (file : List ℕ) :
    runParts hashFun md5Fun partSize file 1 =
      [partInfoAt hashFun md5Fun file.length partSize file 0] := by
  have h : List.range 1 = [0] := rfl
  simp [runParts, h]

/-- C1 (confirmed): for a run collected in any order, one part means the
aggregate `Checksum`/`Etag` are that part's content/MD5 digests unchanged
(no further hashing); more than one part means they are
`contentHash`/`md5` of the concatenation of the per-part digests in
ascending `PartNumber` order. -/
theorem aggregation_asymmetric (hashFun md5Fun : List ℕ → List ℕ)
    (filePath algorithm : String) (partSize : ℕ) (file : List ℕ) (n : ℕ)
    (arrival : List PartInfo) (hn : 0 < n)
    (hperm : arrival.Perm (runParts hashFun md5Fun partSize file n)) :
    ∃ mf,
      calculateChecksum hashFun md5Fun filePath algorithm partSize arrival = some mf ∧
      (n = 1 →
        mf.Checksum = (partInfoAt hashFun md5Fun file.length partSize file 0).Checksum ∧
        mf.Etag = (partInfoAt hashFun md5Fun file.length partSize file 0).MD5Checksum) ∧
      (1 < n →
        mf.Checksum =
          hashFun ((runParts hashFun md5Fun partSize file n).map PartInfo.Checksum).flatten ∧
        mf.Etag =
          md5Fun ((runParts hashFun md5Fun partSize file n).map PartInfo.MD5Checksum).flatten) := by
  rw [calculateChecksum_canonical hashFun md5Fun filePath algorithm partSize file n arrival hperm]
  rcases Nat.lt_or_ge n 2 with h2 | h2
  · have hn1 : n = 1 := by omega
    subst hn1
    rw [runParts_one, aggregateParts_single]
    exact ⟨_, rfl, fun _ => ⟨rfl, rfl⟩, fun h => absurd h (by omega)⟩
  · rw [aggregateParts_multi _ _ _ (by rw [runParts_length]; omega)]
    exact ⟨_, rfl, fun h1 => absurd h1 (by omega), fun _ => ⟨rfl, rfl⟩⟩

/-- Witness for C1 at a concrete two-part run collected in reversed order. -/
theorem aggregation_asymmetric_witness :
    0 < 2 ∧
    (runParts hashFixture md5Fixture 4 fileFixture 2).reverse.Perm
      (runParts hashFixture md5Fixture 4 fileFixture 2) ∧
    ∃ mf,
      calculateChecksum hashFixture md5Fixture "f" "sha256" 4
        (runParts hashFixture md5Fixture 4 fileFixture 2).reverse = some mf ∧
      (2 = 1 →
        mf.Checksum = (partInfoAt hashFixture md5Fixture fileFixture.length 4 fileFixture 0).Checksum ∧
        mf.Etag = (partInfoAt hashFixture md5Fixture fileFixture.length 4 fileFixture 0).MD5Checksum) ∧
      (1 < 2 →
        mf.Checksum =
          hashFixture ((runParts hashFixture md5Fixture 4 fileFixture 2).map PartInfo.Checksum).flatten ∧
        mf.Etag =
          md5Fixture ((runParts hashFixture md5Fixture 4 fileFixture 2).map PartInfo.MD5Checksum).flatten) :=
  ⟨by decide, by decide,
    aggregation_asymmetric hashFixture md5Fixture "f" "sha256" 4 fileFixture 2
      (runParts hashFixture md5Fixture 4 fileFixture 2).reverse (by decide) (by decide)⟩

/-- C3 (corrected): for a multi-part run the produced `ManifestFile` carries
the full list of all `n` parts, with `PartNumber`s exactly `1, …, n` in
ascending order — but for `n = 1` the single-part branch of
`CalculateChecksum` builds the manifest without setting `PartList`, which
therefore stays `nil`. -/
theorem partList_only_for_multipart (hashFun md5Fun : List ℕ → List ℕ)
    (filePath algorithm : String) (partSize : ℕ) (file : List ℕ) (n : ℕ)
    (arrival : List PartInfo) (hn : 0 < n)
    (hperm : arrival.Perm (runParts hashFun md5Fun partSize file n)) :
    ∃ mf,
      calculateChecksum hashFun md5Fun filePath algorithm partSize arrival = some mf ∧
      (1 < n →
        mf.PartList = runParts hashFun md5Fun partSize file n ∧
        mf.PartList.length = n ∧
        mf.PartList.map PartInfo.PartNumber = List.range' 1 n) ∧
      (n = 1 → mf.PartList = []) := by
  rw [calculateChecksum_canonical hashFun md5Fun filePath algorithm partSize file n arrival hperm]
  rcases Nat.lt_or_ge n 2 with h2 | h2
  · have hn1 : n = 1 := by omega
    subst hn1
    rw [runParts_one, aggregateParts_single]
    exact ⟨_, rfl, fun h => absurd h (by omega), fun _ => rfl⟩
  · rw [aggregateParts_multi _ _ _ (by rw [runParts_length]; omega)]
    refine ⟨_, rfl, fun _ => ⟨rfl, ?_, ?_⟩, fun h1 => absurd h1 (by omega)⟩
    · exact runParts_length hashFun md5Fun partSize file n
    · exact runParts_partNumbers hashFun md5Fun partSize file n

/-- Counterexample to C3 as stated: a concrete single-part run produces a
manifest whose `PartList` is empty even though the run has one part, so the
result does not contain the ordered list of all `N = 1` `PartInfo` values. -/
theorem partList_single_counterexample :
    (calculateChecksum hashFixture md5Fixture "f" "sha256" 4
        (runParts hashFixture md5Fixture 4 smallFileFixture 1)).map ManifestFile.PartList =
      some [] ∧
    runParts hashFixture md5Fixture 4 smallFileFixture 1 ≠ [] := by
  exact ⟨by decide, by decide⟩

/-- Witness for C3 at a concrete two-part run. -/
theorem partList_only_for_multipart_witness :
    0 < 2 ∧
    (runParts hashFixture md5Fixture 4 fileFixture 2).Perm
      (runParts hashFixture md5Fixture 4 fileFixture 2) ∧
    ∃ mf,
      calculateChecksum hashFixture md5Fixture "f" "sha256" 4
        (runParts hashFixture md5Fixture 4 fileFixture 2) = some mf ∧
      (1 < 2 →
        mf.PartList = runParts hashFixture md5Fixture 4 fileFixture 2 ∧
        mf.PartList.length = 2 ∧
        mf.PartList.map PartInfo.PartNumber = List.range' 1 2) ∧
      (2 = 1 → mf.PartList = []) :=
  ⟨by decide, by decide,
    partList_only_for_multipart hashFixture md5Fixture "f" "sha256" 4 fileFixture 2
      (runParts hashFixture md5Fixture 4 fileFixture 2) (by decide) (by decide)⟩

/-- C4 (corrected): the `-N` suffix lives only in the textual manifest row —
the raw `Checksum`/`Etag` bytes are pure digests in both branches — and for
a multi-part aggregate the rendered Etag is the hex digest followed by
`-N`.  But for a single-part file the claim fails: `WriteSimpleManifest`
always appends `"-" ++ len(PartList)`, and the single-part branch leaves
`PartList` empty, so the rendered digests carry a `-0` suffix. -/
theorem count_suffix_rendering (hashFun md5Fun : List ℕ → List ℕ)
    (filePath algorithm : String) (partSize : ℕ) (file : List ℕ) (n : ℕ)
    (arrival : List PartInfo) (printHex : Bool) (hn : 0 < n)
    (hperm : arrival.Perm (runParts hashFun md5Fun partSize file n)) :
    ∃ mf,
      calculateChecksum hashFun md5Fun filePath algorithm partSize arrival = some mf ∧
      (1 < n →
        mf.Checksum =
          hashFun ((runParts hashFun md5Fun partSize file n).map PartInfo.Checksum).flatten ∧
        mf.Etag =
          md5Fun ((runParts hashFun md5Fun partSize file n).map PartInfo.MD5Checksum).flatten ∧
        manifestRow printHex mf =
          [filePath, natToStr partSize, algorithm,
            byteSliceString printHex mf.Checksum ++ "-" ++ natToStr n,
            hexEncode mf.Etag ++ "-" ++ natToStr n]) ∧
      (n = 1 →
        mf.Checksum = (partInfoAt hashFun md5Fun file.length partSize file 0).Checksum ∧
        mf.Etag = (partInfoAt hashFun md5Fun file.length partSize file 0).MD5Checksum ∧
        manifestRow printHex mf =
          [filePath, natToStr partSize, algorithm,
            byteSliceString printHex mf.Checksum ++ "-" ++ natToStr 0,
            hexEncode mf.Etag ++ "-" ++ natToStr 0]) := by
  rw [calculateChecksum_canonical hashFun md5Fun filePath algorithm partSize file n arrival hperm]
  rcases Nat.lt_or_ge n 2 with h2 | h2
  · have hn1 : n = 1 := by omega
    subst hn1
    rw [runParts_one, aggregateParts_single]
    exact ⟨_, rfl, fun h => absurd h (by omega), fun _ => ⟨rfl, rfl, rfl⟩⟩
  · rw [aggregateParts_multi _ _ _ (by rw [runParts_length]; omega)]
    refine ⟨_, rfl, fun _ => ⟨rfl, rfl, ?_⟩, fun h1 => absurd h1 (by omega)⟩
    simp only [manifestRow]
    rw [runParts_length]

/-- Counterexample to C4 as stated: for a concrete single-part run the
manifest row renders both digests with a `-0` count suffix attached, so it
is false that no count suffix is attached at all when `NumberOfParts = 1`. -/
theorem single_manifest_suffix_counterexample :
    (calculateChecksum hashFixture md5Fixture "f" "sha256" 4
        (runParts hashFixture md5Fixture 4 smallFileFixture 1)).map (manifestRow true) =
      some ["f", "4", "sha256", "25-0", "021e-0"] ∧
    hexEncode (md5Fixture [10, 20]) = "021e" ∧
    ("021e-0" : String) ≠ "021e" := by
  exact ⟨by decide, by decide, by decide⟩

/-- Witness for C4 at a concrete two-part run. -/
theorem count_suffix_rendering_witness :
    0 < 2 ∧
    (runParts hashFixture md5Fixture 4 fileFixture 2).Perm
      (runParts hashFixture md5Fixture 4 fileFixture 2) ∧
    ∃ mf,
      calculateChecksum hashFixture md5Fixture "g" "sha256" 4
        (runParts hashFixture md5Fixture 4 fileFixture 2) = some mf ∧
      (1 < 2 →
        mf.Checksum =
          hashFixture ((runParts hashFixture md5Fixture 4 fileFixture 2).map PartInfo.Checksum).flatten ∧
        mf.Etag =
          md5Fixture ((runParts hashFixture md5Fixture 4 fileFixture 2).map PartInfo.MD5Checksum).flatten ∧
        manifestRow false mf =
          ["g", natToStr 4, "sha256",
            byteSliceString false mf.Checksum ++ "-" ++ natToStr 2,
            hexEncode mf.Etag ++ "-" ++ natToStr 2]) ∧
      (2 = 1 →
        mf.Checksum = (partInfoAt hashFixture md5Fixture fileFixture.length 4 fileFixture 0).Checksum ∧
        mf.Etag = (partInfoAt hashFixture md5Fixture fileFixture.length 4 fileFixture 0).MD5Checksum ∧
        manifestRow false mf =
          ["g", natToStr 4, "sha256",
            byteSliceString false mf.Checksum ++ "-" ++ natToStr 0,
            hexEncode mf.Etag ++ "-" ++ natToStr 0]) :=
  ⟨by decide, by decide,
    count_suffix_rendering hashFixture md5Fixture "g" "sha256" 4 fileFixture 2
      (runParts hashFixture md5Fixture 4 fileFixture 2) false (by decide) (by decide)⟩

/-- C7 (corrected): aggregating zero parts is not guarded: with an empty
collected list the single-part branch of `CalculateChecksum` evaluates
`partInfoList[0]`, an out-of-range index — a runtime panic (`none` here),
not an explicit `AggregationError`; for every non-empty list the
aggregation proceeds and no out-of-range access happens. -/
theorem aggregate_empty_behavior (hashFun md5Fun : List ℕ → List ℕ)
    (parts : List PartInfo) :
    (parts = [] → aggregateParts hashFun md5Fun parts = none) ∧
    (parts ≠ [] → ∃ mf, aggregateParts hashFun md5Fun parts = some mf) := by
  constructor
  · rintro rfl
    rfl
  · intro hne
    match parts, hne with
    | p :: ps, _ =>
      by_cases h : 1 < (p :: ps).length
      · exact ⟨_, aggregateParts_multi hashFun md5Fun (p :: ps) h⟩
      · have hps : ps = [] := by
          cases ps with
          | nil => rfl
          | cons q qs => simp at h
        subst hps
        exact ⟨_, aggregateParts_single hashFun md5Fun p⟩

/-- Counterexample to C7 as stated: on the empty part list the aggregation
step performs the out-of-range access (the `none` outcome models the Go
panic on `partInfoList[0]`); no `AggregationError` is reported. -/
theorem aggregate_empty_counterexample :
    aggregateParts hashFixture md5Fixture [] = none := by
  rfl

/-- Witness for C7 at a concrete non-empty part list. -/
theorem aggregate_empty_behavior_witness :
    ([partFixture] ≠ ([] : List PartInfo)) ∧
    ∃ mf, aggregateParts hashFixture md5Fixture [partFixture] = some mf :=
  ⟨by decide, (aggregate_empty_behavior hashFixture md5Fixture [partFixture]).2 (by decide)⟩

/-! ### Part geometry (C2) -/

/-- Partial sums of the part sizes telescope: the first `j` parts cover
exactly the first `min (partSize * j) fileSize` bytes. -/
theorem partial_sum_sizes (fileSize partSize : ℕ) (j : ℕ) :
    ((List.range j).map (partSizeAt fileSize partSize)).sum =
      min (partSize * j) fileSize := by
  induction j with
  | zero => simp
  | succ j ih =>
    rw [List.range_succ, List.map_append, List.sum_append, ih]
    simp only [List.map_cons, List.map_nil, List.sum_cons, List.sum_nil,
      partSizeAt, partEnd, partStart, Nat.mul_succ]
    generalize partSize * j = a
    omega

/-- C2 (corrected): whenever `NumberOfParts` equals the exact integer
ceiling `⌈fileSize / partSize⌉` — which the `float64` computation of
`resolvePartSize` delivers on every realistically sized file, but not for
all inputs, see the counterexample — every part except the last has size
`partSize`, the last has size `fileSize - (n-1) * partSize`, and the part
sizes sum to `fileSize`. -/
theorem part_geometry (fileSize partSize n : ℕ) (hfs : 0 < fileSize)
    (hps : MIN_PART_SIZE ≤ partSize) (hn : n = exactCeilDiv fileSize partSize) :
    (∀ i, i + 1 < n → partSizeAt fileSize partSize i = partSize) ∧
    partSizeAt fileSize partSize (n - 1) = fileSize - (n - 1) * partSize ∧
    ((List.range n).map (partSizeAt fileSize partSize)).sum = fileSize := by
  have hp : 0 < partSize := lt_of_lt_of_le (by decide) hps
  have hdm := Nat.div_add_mod (fileSize + partSize - 1) partSize
  have hr : (fileSize + partSize - 1) % partSize < partSize := Nat.mod_lt _ hp
  have hn1 : 0 < n := by
    subst hn
    exact Nat.div_pos (by omega) hp
  obtain ⟨m, rfl⟩ : ∃ m, n = m + 1 := ⟨n - 1, by omega⟩
  unfold exactCeilDiv at hn
  rw [← hn, Nat.mul_succ] at hdm
  have hupper : fileSize ≤ partSize * m + partSize := by omega
  have hlower : partSize * m < fileSize := by omega
  refine ⟨?_, ?_, ?_⟩
  · intro i hi
    have him : partSize * (i + 1) ≤ partSize * m := Nat.mul_le_mul_left partSize (by omega)
    rw [Nat.mul_succ] at him
    simp only [partSizeAt, partEnd, partStart]
    generalize hA : partSize * i = a at him
    omega
  · simp only [Nat.add_sub_cancel, partSizeAt, partEnd, partStart]
    rw [Nat.mul_comm m partSize]
    omega
  · rw [partial_sum_sizes, Nat.mul_succ]
    omega

/-- Witness for C2's amended statement at the spec's concrete scenario: a
17 MiB file at 5 MiB part size has 4 parts, the last of size 2 MiB. -/
theorem part_geometry_witness :
    0 < 17825792 ∧ MIN_PART_SIZE ≤ 5242880 ∧ 4 = exactCeilDiv 17825792 5242880 ∧
    ((∀ i, i + 1 < 4 → partSizeAt 17825792 5242880 i = 5242880) ∧
      partSizeAt 17825792 5242880 (4 - 1) = 17825792 - (4 - 1) * 5242880 ∧
      ((List.range 4).map (partSizeAt 17825792 5242880)).sum = 17825792) :=
  ⟨by decide, by decide, by decide,
    part_geometry 17825792 5242880 4 (by decide) (by decide) (by decide)⟩

/-- Counterexample to C2 as stated: at `FileSize = 5 * 2^53 + 1` (a valid
configuration: positive size, part size exactly the 5 MiB minimum)
`resolvePartSize` computes `NumberOfParts = 2^33` — `float64` rounding
drops the `+1` before the division — while the exact integer ceiling is
`2^33 + 1`. -/
theorem float_partcount_counterexample :
    resolvePartSize 45035996273704961 5242880 = GoResult.ok 8589934592 ∧
    exactCeilDiv 45035996273704961 5242880 = 8589934593 ∧
    (8589934592 : ℕ) ≠ 8589934593 := by
  exact ⟨by decide, by decide, by decide⟩

/-- C5 (confirmed): a worker for an in-range part reads exactly the part's
`size` bytes — the byte range starting at `partStart` — and both digests
are computed over exactly those bytes; if the file on disk holds fewer than
`size` bytes past `partStart` (truncated or modified concurrently), the
`int64(n) != size` check fires and `CalculateChecksumForPart` returns an
error and no `PartInfo`. -/
theorem worker_reads_exact_range (hashFun md5Fun : List ℕ → List ℕ)
    (fileSize partSize : ℕ) (diskFile : List ℕ) (i : ℕ)
    (hstart : partStart partSize i ≤ fileSize) :
    (partStart partSize i + partSizeAt fileSize partSize i ≤ diskFile.length →
      (partData fileSize partSize diskFile i).length = partSizeAt fileSize partSize i ∧
      calculateChecksumForPart hashFun md5Fun fileSize partSize diskFile i =
        .ok (partInfoAt hashFun md5Fun fileSize partSize diskFile i) ∧
      (partInfoAt hashFun md5Fun fileSize partSize diskFile i).Checksum =
        hashFun ((diskFile.drop (partStart partSize i)).take (partSizeAt fileSize partSize i)) ∧
      (partInfoAt hashFun md5Fun fileSize partSize diskFile i).MD5Checksum =
        md5Fun ((diskFile.drop (partStart partSize i)).take (partSizeAt fileSize partSize i))) ∧
    (diskFile.length - partStart partSize i < partSizeAt fileSize partSize i →
      calculateChecksumForPart hashFun md5Fun fileSize partSize diskFile i =
        .error "limitedReader returned fewer bytes than expected") := by
  have hlen : (partData fileSize partSize diskFile i).length =
      min (partSizeAt fileSize partSize i) (diskFile.length - partStart partSize i) := by
    simp [partData]
  constructor
  · intro havail
    have hl : (partData fileSize partSize diskFile i).length =
        partSizeAt fileSize partSize i := by omega
    refine ⟨hl, ?_, rfl, rfl⟩
    simp only [calculateChecksumForPart]
    rw [if_neg (fun h => h hl)]
  · intro hshort
    have hl : (partData fileSize partSize diskFile i).length ≠
        partSizeAt fileSize partSize i := by omega
    simp only [calculateChecksumForPart, if_pos hl]

/-- Witness for C5: a part planned as 4 bytes at offset 4 of a 10-byte file
meets a disk file truncated to 7 bytes and fails. -/
theorem worker_reads_exact_range_witness :
    partStart 4 1 ≤ 10 ∧
    (7 : ℕ) - partStart 4 1 < partSizeAt 10 4 1 ∧
    calculateChecksumForPart hashFixture md5Fixture 10 4 [1, 2, 3, 4, 5, 6, 7] 1 =
      .error "limitedReader returned fewer bytes than expected" :=
  ⟨by decide, by decide,
    (worker_reads_exact_range hashFixture md5Fixture 10 4 [1, 2, 3, 4, 5, 6, 7] 1
      (by decide)).2 (by decide)⟩

/-- C6 (confirmed): construction fails — `log.Fatal`, the `ConfigError`
surface of the spec, before any part work — exactly when the `FilePath` is
empty, the stat fails (missing/unreadable file), the stat-ed `FileSize` is
0, or `PartSize` is below the 5 MiB minimum; every valid configuration
constructs successfully, and a fatal outcome carries no constructed value
(no partial state). -/
theorem construction_validation (o : MultipartFileOpts) (stat : Option ℕ) :
    (∃ r, newMultipartFile o stat = GoResult.ok r) ↔
      (o.FilePath ≠ "" ∧ ∃ sz, stat = some sz ∧ 0 < sz ∧ MIN_PART_SIZE ≤ o.PartSize) := by
  by_cases hpath : o.FilePath = ""
  · simp [newMultipartFile, checkRequiredArgs, hpath]
  · cases stat with
    | none => simp [newMultipartFile, checkRequiredArgs, hpath]
    | some sz =>
      by_cases hsz : sz = 0
      · subst hsz
        simp [newMultipartFile, checkRequiredArgs, hpath, resolvePartSize]
      · by_cases hmin : o.PartSize < MIN_PART_SIZE
        · simp only [newMultipartFile, checkRequiredArgs, if_neg hpath, resolvePartSize,
            if_neg hsz, if_pos hmin]
          constructor
          · rintro ⟨r, hr⟩
            exact absurd hr (by simp)
          · rintro ⟨-, sz2, hsz2, -, hmin2⟩
            cases hsz2
            omega
        · simp only [newMultipartFile, checkRequiredArgs, if_neg hpath, resolvePartSize,
            if_neg hsz, if_neg hmin]
          constructor
          · intro
            exact ⟨hpath, sz, rfl, Nat.pos_of_ne_zero hsz, Nat.le_of_not_lt hmin⟩
          · intro
            refine ⟨(⟨o.FilePath, o.ManifestFilePath, sz, goNumberOfParts sz o.PartSize,
              o.PartSize, 16, o.Threads, o.Algorithm⟩, none), ?_⟩
            rfl

/-- C8 (corrected): the rendering of digest bytes is not independent of
process-wide state: `ByteSlice.String` consults the package-global
`printHex` flag, so the same bytes render differently before and after a
`PrintHexMode` call whenever their hex and base64 encodings differ. -/
theorem rendering_global_flag_dependence (bs : List ℕ)
    (hne : hexEncode bs ≠ base64Encode bs) :
    byteSliceString (printHexMode printHexInit) bs ≠ byteSliceString printHexInit bs := by
  simpa [byteSliceString, printHexMode, printHexInit] using hne

/-- Counterexample to C8 as stated: the renderings of the byte `0xAB`
before and after a `PrintHexMode` call differ (`"qw=="` vs `"ab"`), so two
renderings of the same bytes are not identical regardless of prior
process-wide mode changes. -/
theorem rendering_flag_counterexample :
    byteSliceString (printHexMode printHexInit) [171] ≠ byteSliceString printHexInit [171] ∧
    byteSliceString (printHexMode printHexInit) [171] = "ab" ∧
    byteSliceString printHexInit [171] = "qw==" := by
  exact ⟨by decide, by decide, by decide⟩

/-- Witness for C8's amended statement at the byte `0xAB`. -/
theorem rendering_global_flag_dependence_witness :
    hexEncode [171] ≠ base64Encode [171] ∧
    byteSliceString (printHexMode printHexInit) [171] ≠ byteSliceString printHexInit [171] :=
  ⟨by decide, rendering_global_flag_dependence [171] (by decide)⟩

/-- C10 (confirmed): `NewMultipartFile` either terminates the process from
inside validation (`log.Fatal`) or returns with a non-nil `*MultipartFile`
and a nil error; every invalid configuration (empty path, failing stat,
zero file size, undersized part) ends in process termination, never in a
non-nil returned error. -/
theorem constructor_error_channel (o : MultipartFileOpts) (stat : Option ℕ) :
    ((∃ msg, newMultipartFile o stat = GoResult.fatal msg) ∨
      (∃ m, newMultipartFile o stat = GoResult.ok (m, none))) ∧
    ((o.FilePath = "" ∨ stat = none ∨ stat = some 0 ∨ o.PartSize < MIN_PART_SIZE) →
      ∃ msg, newMultipartFile o stat = GoResult.fatal msg) := by
  constructor
  · by_cases hpath : o.FilePath = ""
    · exact Or.inl ⟨"FilePath is a required parameter",
        by simp [newMultipartFile, checkRequiredArgs, hpath]⟩
    · cases stat with
      | none =>
        exact Or.inl ⟨"stat error", by simp [newMultipartFile, checkRequiredArgs, hpath]⟩
      | some sz =>
        by_cases hsz : sz = 0
        · subst hsz
          exact Or.inl ⟨"file size cannot be 0",
            by simp [newMultipartFile, checkRequiredArgs, hpath, resolvePartSize]⟩
        · by_cases hmin : o.PartSize < MIN_PART_SIZE
          · refine Or.inl ⟨"part size should be larger than 5MB", ?_⟩
            simp only [newMultipartFile, checkRequiredArgs, if_neg hpath, resolvePartSize,
              if_neg hsz, if_pos hmin]
          · refine Or.inr ⟨⟨o.FilePath, o.ManifestFilePath, sz, goNumberOfParts sz o.PartSize,
              o.PartSize, 16, o.Threads, o.Algorithm⟩, ?_⟩
            simp only [newMultipartFile, checkRequiredArgs, if_neg hpath, resolvePartSize,
              if_neg hsz, if_neg hmin]
  · intro hbad
    by_cases hpath : o.FilePath = ""
    · exact ⟨"FilePath is a required parameter",
        by simp [newMultipartFile, checkRequiredArgs, hpath]⟩
    · cases stat with
      | none => exact ⟨"stat error", by simp [newMultipartFile, checkRequiredArgs, hpath]⟩
      | some sz =>
        by_cases hsz : sz = 0
        · subst hsz
          exact ⟨"file size cannot be 0",
            by simp [newMultipartFile, checkRequiredArgs, hpath, resolvePartSize]⟩
        · have hmin : o.PartSize < MIN_PART_SIZE := by
            rcases hbad with h | h | h | h
            · exact absurd h hpath
            · exact absurd h (by simp)
            · rw [Option.some_inj] at h
              exact absurd h hsz
            · exact h
          exact ⟨"part size should be larger than 5MB",
            by simp only [newMultipartFile, checkRequiredArgs, if_neg hpath,
              resolvePartSize, if_neg hsz, if_pos hmin]⟩

/-! ### Orchestrator safety (C9) -/

theorem countP_set {α : Type} (p : α → Bool) (l : List α) (i : ℕ) (a b : α)
    (h : l[i]? = some b) :
    (l.set i a).countP p + (if p b then 1 else 0) = l.countP p + (if p a then 1 else 0) := by
  induction l generalizing i with
  | nil => simp at h
  | cons x xs ih =>
    cases i with
    | zero =>
      simp only [List.getElem?_cons_zero, Option.some_inj] at h
      subst h
      simp only [List.set, List.countP_cons]
      omega
    | succ j =>
      simp only [List.getElem?_cons_succ] at h
      simp only [List.set, List.countP_cons]
      have := ih j h
      omega

theorem countP_replicate_false {α : Type} (p : α → Bool) (a : α) (n : ℕ)
    (h : p a = false) : (List.replicate n a).countP p = 0 := by
  induction n with
  | zero => simp
  | succ m ih => simp [List.replicate, List.countP_cons, h, ih]

theorem mem_of_getElem_eq_some {α : Type} {l : List α} {i : ℕ} {b : α}
    (h : l[i]? = some b) : b ∈ l := by
  obtain ⟨hlt, rfl⟩ := List.getElem?_eq_some.mp h
  exact List.getElem_mem hlt

/-- Inductive invariant of the orchestrator: never more than `threads`
slots held, the worker list length is pinned to the part count, and the
`results` channel is closed only in states where every worker is done. -/
theorem reach_invariant (n threads : ℕ) (s : OrchState) (h : Reach n threads s) :
    workingCount s ≤ threads ∧ s.phases.length = n ∧
      (s.closed = true → ∀ w ∈ s.phases, w = WPhase.done) := by
  induction h with
  | init =>
    refine ⟨?_, by simp [initState], ?_⟩
    · simp only [workingCount, initState]
      rw [countP_replicate_false]
      · exact Nat.zero_le threads
      · decide
    · intro hc
      simp [initState] at hc
  | @step u t hreach hstep ih =>
    obtain ⟨ih1, ih2, ih3⟩ := ih
    cases hstep with
    | dispatch i hi hfirst hslot =>
      have hc := countP_set (fun w => decide (w = WPhase.working)) u.phases i
        WPhase.working WPhase.pending hi
      simp at hc
      refine ⟨?_, ?_, ?_⟩
      · show (u.phases.set i WPhase.working).countP
          (fun w => decide (w = WPhase.working)) ≤ threads
        have hslot2 : u.phases.countP (fun w => decide (w = WPhase.working)) < threads := hslot
        omega
      · show (u.phases.set i WPhase.working).length = n
        rw [List.length_set]
        exact ih2
      · intro hcl
        exact absurd (ih3 hcl WPhase.pending (mem_of_getElem_eq_some hi)) (by decide)
    | finishWork i hi =>
      have hc := countP_set (fun w => decide (w = WPhase.working)) u.phases i
        WPhase.released WPhase.working hi
      simp at hc
      refine ⟨?_, ?_, ?_⟩
      · show (u.phases.set i WPhase.released).countP
          (fun w => decide (w = WPhase.working)) ≤ threads
        have hcount : u.phases.countP (fun w => decide (w = WPhase.working)) ≤ threads := ih1
        omega
      · show (u.phases.set i WPhase.released).length = n
        rw [List.length_set]
        exact ih2
      · intro hcl
        exact absurd (ih3 hcl WPhase.working (mem_of_getElem_eq_some hi)) (by decide)
    | publish i hi hopen =>
      have hc := countP_set (fun w => decide (w = WPhase.working)) u.phases i
        WPhase.done WPhase.released hi
      simp at hc
      refine ⟨?_, ?_, ?_⟩
      · show (u.phases.set i WPhase.done).countP
          (fun w => decide (w = WPhase.working)) ≤ threads
        have hcount : u.phases.countP (fun w => decide (w = WPhase.working)) ≤ threads := ih1
        omega
      · show (u.phases.set i WPhase.done).length = n
        rw [List.length_set]
        exact ih2
      · intro hcl
        have hcl2 : u.closed = true := hcl
        rw [hopen] at hcl2
        cases hcl2
    | closeResults hall hopen =>
      exact ⟨ih1, ih2, fun _ => hall⟩

/-- In one step a worker holding a slot (`working`) can never jump straight
to `done` (publication): it must first pass through `released`, i.e. through
`<-limiter`. -/
theorem working_not_done_after_step {threads : ℕ} {s t : OrchState}
    (hstep : OrchStep threads s t) (i : ℕ)
    (hi : s.phases[i]? = some WPhase.working) :
    t.phases[i]? ≠ some WPhase.done := by
  cases hstep with
  | dispatch j hj hfirst hslot =>
    by_cases hij : j = i
    · subst hij
      rw [hi] at hj
      simp at hj
    · show (s.phases.set j WPhase.working)[i]? ≠ some WPhase.done
      rw [List.getElem?_set_ne hij, hi]
      simp
  | finishWork j hj =>
    by_cases hij : j = i
    · subst hij
      have hlt : j < s.phases.length := (List.getElem?_eq_some.mp hj).1
      show (s.phases.set j WPhase.released)[j]? ≠ some WPhase.done
      rw [List.getElem?_set_eq_of_lt _ hlt]
      simp
    · show (s.phases.set j WPhase.released)[i]? ≠ some WPhase.done
      rw [List.getElem?_set_ne hij, hi]
      simp
  | publish j hj hopen =>
    by_cases hij : j = i
    · subst hij
      rw [hi] at hj
      simp at hj
    · show (s.phases.set j WPhase.done)[i]? ≠ some WPhase.done
      rw [List.getElem?_set_ne hij, hi]
      simp
  | closeResults hall hopen =>
    show s.phases[i]? ≠ some WPhase.done
    rw [hi]
    simp

/-- C9 (confirmed): in every reachable state of the `CalculateChecksum`
orchestrator at most `threads` workers hold a `limiter` slot concurrently;
the worker list stays pinned at `NumberOfParts` entries; once the `results`
channel is closed, all `NumberOfParts` dispatched workers have completed
(published); and no step takes a slot-holding worker directly to published —
the slot is released (`<-limiter`) strictly before `results <- …`. -/
theorem orchestrator_safety (n threads : ℕ) (s : OrchState) (h : Reach n threads s) :
    workingCount s ≤ threads ∧
    s.phases.length = n ∧
    (s.closed = true →
      s.phases.count WPhase.done = n ∧ ∀ w ∈ s.phases, w = WPhase.done) ∧
    (∀ (t : OrchState) (i : ℕ), OrchStep threads s t → s.phases[i]? = some WPhase.working →
      t.phases[i]? ≠ some WPhase.done) := by
  obtain ⟨h1, h2, h3⟩ := reach_invariant n threads s h
  refine ⟨h1, h2, ?_, ?_⟩
  · intro hc
    have hall := h3 hc
    refine ⟨?_, hall⟩
    rw [← h2, List.count_eq_length]
    intro b hb
    exact (hall b hb).symm
  · intro t i hstep hi
    exact working_not_done_after_step hstep i hi

/-- Witness for C9 at the initial state of a 2-part run with
`ThreadLimit = 1`. -/
theorem orchestrator_safety_witness :
    workingCount (initState 2) ≤ 1 ∧
    (initState 2).phases.length = 2 ∧
    ((initState 2).closed = true →
      (initState 2).phases.count WPhase.done = 2 ∧
      ∀ w ∈ (initState 2).phases, w = WPhase.done) ∧
    (∀ (t : OrchState) (i : ℕ), OrchStep 1 (initState 2) t →
      (initState 2).phases[i]? = some WPhase.working →
      t.phases[i]? ≠ some WPhase.done) :=
  orchestrator_safety 2 1 (initState 2) Reach.init

/-- Witness for C10: an empty `FilePath` terminates the process, and a
valid configuration returns with a nil error. -/
theorem constructor_error_channel_witness :
    (optsFixtureNoPath.FilePath = "" ∨ (some 10485760 : Option ℕ) = none ∨
      (some 10485760 : Option ℕ) = some 0 ∨ optsFixtureNoPath.PartSize < MIN_PART_SIZE) ∧
    (∃ msg, newMultipartFile optsFixtureNoPath (some 10485760) = GoResult.fatal msg) ∧
    ((∃ msg, newMultipartFile optsFixture (some 10485760) = GoResult.fatal msg) ∨
      (∃ m, newMultipartFile optsFixture (some 10485760) = GoResult.ok (m, none))) :=
  ⟨Or.inl (by decide),
    (constructor_error_channel optsFixtureNoPath (some 10485760)).2 (Or.inl (by decide)),
    (constructor_error_channel optsFixture (some 10485760)).1⟩

end S3Checksum
